import Mathlib

/-!
Verification development for the godeadlink crawler/link-checker.

The Go sources are shallowly embedded: pure functions become Lean functions,
the in-memory store becomes explicit state passing, goroutine/channel code
becomes an explicit action machine, and the external collaborators
(HTTP transport, HTML tokenizer, rate-limiter clock) become oracle
parameters.  Go `map[string]struct{}` values are modelled as duplicate-free
lists in insertion order; wherever Go's unspecified map iteration order is
observable, the order is an explicit parameter.
-/

set_option maxRecDepth 4000

namespace GoDeadlink

/-! ## String helpers (fragments of Go's `strings` package) -/

/-- Go `strings.Contains`: substring test, via `List.isInfix` on characters. -/
def strContains (s pat : String) : Bool :=
  decide (pat.data <:+: s.data)

/-- Go `strings.HasPrefix`. -/
def strStartsWith (s pre : String) : Bool :=
  pre.data.isPrefixOf s.data

/-- Go `strings.ToLower`, restricted to ASCII as used by this repository. -/
def strToLower (s : String) : String :=
  String.mk (s.data.map Char.toLower)

/-- Go `strings.TrimSpace`. -/
def trimSpace (s : String) : String :=
  String.mk ((s.data.dropWhile Char.isWhitespace).reverse.dropWhile Char.isWhitespace |>.reverse)

/-- Insert into a sorted list (helper of `sortBy`). -/
def insertSorted (le : α → α → Bool) (x : α) : List α → List α
  | [] => [x]
  | y :: ys => if le x y then x :: y :: ys else y :: insertSorted le x ys

/-- Insertion sort, modelling Go `sort.Slice` (kernel-reducible; the
repo only sorts by unique URLs, so stability is immaterial). -/
def sortBy (le : α → α → Bool) (l : List α) : List α :=
  l.foldr (insertSorted le) []

/-- Split a character list at the first occurrence of `c`:
returns the part before and, when `c` occurs, the part after it. -/
def splitAtChar (c : Char) : List Char → List Char × Option (List Char)
  | [] => ([], none)
  | x :: xs =>
    if x = c then ([], some xs)
    else
      let (pre, post) := splitAtChar c xs
      (x :: pre, post)

/-! ## Model of the fragment of Go `net/url` used by the repository

`URL`, `parseURL`, `resolveReference`, `hostname`, `port` and `render`
model `url.URL`, `url.Parse`, `URL.ResolveReference`, `URL.Hostname`,
`URL.Port` and `URL.String` on the escaping-free URLs this program
handles (no userinfo, no percent-escapes, no IPv6 literals). -/

structure URL where
  scheme : String := ""
  opaquePart : String := ""
  host : String := ""
  path : String := ""
  query : String := ""
  fragment : String := ""
deriving DecidableEq, Repr

/-- Go `getscheme`: `some (some (scheme, rest))` when a scheme is present,
`some none` when the input has no scheme, `none` for the
"missing protocol scheme" error (colon before any scheme character). -/
def getSchemeAux : List Char → List Char → Option (Option (String × List Char))
  | _, [] => some none
  | acc, c :: cs =>
    if c = ':' then
      if acc.isEmpty then none
      else some (some (String.mk acc.reverse, cs))
    else if c.isAlpha then getSchemeAux (c :: acc) cs
    else if !acc.isEmpty && (c.isDigit || c = '+' || c = '-' || c = '.') then
      getSchemeAux (c :: acc) cs
    else some none

/-- Model of Go `url.Parse`.  Returns `none` exactly where `url.Parse`
returns an error on the inputs this development evaluates: control
characters in the URL, a colon before any scheme character, or a space
inside the authority. -/
def parseURL (raw : String) : Option URL :=
  let cs := raw.data
  if cs.any (fun c => c.val < 32 || c.val = 127) then none
  else
    let (beforeFrag, frag) := splitAtChar '#' cs
    let fragment := String.mk (frag.getD [])
    match getSchemeAux [] beforeFrag with
    | none => none
    | some schemeRest =>
      let (scheme, rest) :=
        match schemeRest with
        | none => ("", beforeFrag)
        | some (sch, rest) => (strToLower sch, rest)
      let (rest, q) := splitAtChar '?' rest
      let query := String.mk (q.getD [])
      match rest with
      | '/' :: '/' :: afterSlashes =>
        let auth := afterSlashes.takeWhile (fun c => c ≠ '/')
        let pathRest := afterSlashes.dropWhile (fun c => c ≠ '/')
        if auth.any (fun c => c = ' ') then none
        else some { scheme, host := String.mk auth, path := String.mk pathRest,
                    query, fragment }
      | _ =>
        if scheme ≠ "" && rest.headD ' ' ≠ '/' then
          some { scheme, opaquePart := String.mk rest, query, fragment }
        else
          some { scheme, path := String.mk rest, query, fragment }

/-- Go `URL.Hostname`: the host with a valid `:port` suffix stripped. -/
def URL.hostname (u : URL) : String :=
  let cs := u.host.data
  let pre := cs.takeWhile (fun c => c ≠ ':')
  let post := cs.dropWhile (fun c => c ≠ ':')
  match post with
  | ':' :: rest => if rest.all Char.isDigit then String.mk pre else u.host
  | _ => u.host

/-- Go `URL.Port`: the digits of a valid `:port` suffix, else `""`. -/
def URL.port (u : URL) : String :=
  let post := u.host.data.dropWhile (fun c => c ≠ ':')
  match post with
  | ':' :: rest => if rest.all Char.isDigit then String.mk rest else ""
  | _ => ""

/-- The prefix of `base` up to and including its last `/` (Go
`base[:strings.LastIndex(base, "/")+1]` inside `resolvePath`). -/
def upToLastSlash (base : String) : String :=
  String.mk ((base.data.reverse.dropWhile (fun c => c ≠ '/')).reverse)

/-- Split a character list on `/` into segments (kernel-reducible
replacement for `String.splitOn`). -/
def splitSegs : List Char → List String
  | [] => [""]
  | x :: xs =>
    if x = '/' then "" :: splitSegs xs
    else
      match splitSegs xs with
      | [] => [String.mk [x]]
      | s :: ss => (String.mk (x :: s.data)) :: ss

/-- Join segments with `/` (kernel-reducible replacement for
`String.intercalate "/"`). -/
def joinSegs : List String → String
  | [] => ""
  | [s] => s
  | s :: ss => s ++ "/" ++ joinSegs ss

/-- One segment step of Go `resolvePath`'s dot-segment removal. -/
def dotStep (acc : List String) (seg : String) : List String :=
  if seg = "." then acc
  else if seg = ".." then acc.dropLast
  else acc ++ [seg]

/-- Model of Go `resolvePath`: merge `ref` onto `base` and remove dot
segments; the result is `""` or starts with `/`. -/
def resolvePath (base ref : String) : String :=
  let full :=
    if ref = "" then base
    else if strStartsWith ref "/" then ref
    else upToLastSlash base ++ ref
  if full = "" then ""
  else
    let segs := (splitSegs full.data).drop (if strStartsWith full "/" then 1 else 0)
    let out := segs.foldl dotStep []
    let trailingDot :=
      match segs.getLast? with
      | some s => s = "." || s = ".."
      | none => false
    let out := if trailingDot && out.getLast? ≠ some "" then out ++ [""] else out
    "/" ++ joinSegs out

/-- Model of Go `URL.ResolveReference` (no userinfo). -/
def URL.resolveReference (base ref : URL) : URL :=
  let scheme := if ref.scheme = "" then base.scheme else ref.scheme
  if ref.scheme ≠ "" || ref.host ≠ "" then
    { ref with scheme, path := resolvePath ref.path "" }
  else if ref.opaquePart ≠ "" then
    { ref with scheme, host := "", path := "" }
  else
    let sameDoc := ref.path = "" && ref.query = ""
    { scheme
      opaquePart := ""
      host := base.host
      path := resolvePath base.path ref.path
      query := if sameDoc then base.query else ref.query
      fragment := if sameDoc && ref.fragment = "" then base.fragment else ref.fragment }

/-- Model of Go `URL.String` (no userinfo, no escaping). -/
def URL.render (u : URL) : String :=
  (if u.scheme ≠ "" then u.scheme ++ ":" else "") ++
  (if u.opaquePart ≠ "" then u.opaquePart
   else
     (if (u.scheme ≠ "" || u.host ≠ "") && (u.host ≠ "" || u.path ≠ "") then
        "//" ++ u.host
      else "") ++
     (if u.path ≠ "" && !strStartsWith u.path "/" && u.host ≠ "" then "/" else "") ++
     u.path) ++
  (if u.query ≠ "" then "?" ++ u.query else "") ++
  (if u.fragment ≠ "" then "#" ++ u.fragment else "")

/-! ## Domain types

`LinkMeta` models `domain.LinkMeta`; the Go `map[string]struct{}` sources
set is a duplicate-free list in insertion order.  `Kind` and `SkipReason`
are Go string types, kept as `String` (`""` means unset). -/

structure LinkMeta where
  url : String := ""
  firstSeenDepth : Nat := 0
  sources : List String := []
  kind : String := ""
  skipped : String := ""
deriving DecidableEq, Repr

/-- Model of `domain.Result` / `model.Result` (`Elapsed` is wall-clock
time and is not modelled).  Errors carry whether `errors.As` would find
an `*http.ProtocolError` in the chain, which is the only property
`check.go` inspects. -/
inductive GoError
  | protocolError (msg : String)
  | otherError (msg : String)
deriving DecidableEq, Repr

structure Result where
  url : String
  statusCode : Int := 0
  err : Option GoError := none
deriving DecidableEq, Repr

/-- Model of `domain.Result.IsDead`. -/
def Result.isDead (r : Result) : Bool :=
  if r.err ≠ none then true else r.statusCode ≥ 400

/-! ## DiscoveryStore: model of `store.Memory` (src/unnamed/part_010)

`visited` is the visited-pages set and `links` the discovered-links map,
both keyed by `normalizeForKey`.  The map is an association list with
unique keys; `allDiscovered` sorts by URL exactly as the Go code does,
so the list order never reaches the observable output. -/

/-- Model of `store.normalizeForKey`: strip the fragment, lowercase the hostname,
keep the port. -/
def normalizeForKey (raw : String) : String :=
  match parseURL raw with
  | none => raw
  | some u =>
    let u := { u with fragment := "" }
    let u :=
      if u.host ≠ "" then
        let host := strToLower u.hostname
        if u.port ≠ "" then { u with host := host ++ ":" ++ u.port }
        else { u with host := host }
      else u
    u.render

structure Memory where
  visited : List String := []
  links : List (String × LinkMeta) := []
deriving DecidableEq, Repr

def Memory.lookupLink (m : Memory) (k : String) : Option LinkMeta :=
  (m.links.find? (fun p => p.1 = k)).map Prod.snd

/-- Replace the value at key `k` if present, else append `(k, v)`.
Models writing `m.links[k]` in Go (the list order is unobservable, see
`allDiscovered`). -/
def updateOrInsert (k : String) (v : LinkMeta) : List (String × LinkMeta) → List (String × LinkMeta)
  | [] => [(k, v)]
  | (k', v') :: rest =>
    if k' = k then (k, v) :: rest else (k', v') :: updateOrInsert k v rest

/-- Model of `Memory.MarkVisitedPage`: test-and-set of the normalized key. -/
def Memory.markVisitedPage (m : Memory) (url : String) : Bool × Memory :=
  let k := normalizeForKey url
  if m.visited.contains k then (false, m)
  else (true, { m with visited := m.visited ++ [k] })

def Memory.visitedCount (m : Memory) : Nat :=
  m.visited.length

/-- Set-insert into the sources set (Go `ex.Sources[s] = struct{}{}`). -/
def insertSource (sources : List String) (s : String) : List String :=
  if sources.contains s then sources else sources ++ [s]

/-- Model of `Memory.RecordDiscoveredLink`: insert under the normalized key, or
merge keeping the minimum depth, overwriting kind/skip-reason only with
non-empty values, and set-inserting the normalized source page. -/
def Memory.recordDiscoveredLink (m : Memory) (meta : LinkMeta) (sourcePage : String) : Memory :=
  let k := normalizeForKey meta.url
  let ex :=
    match m.lookupLink k with
    | some ex => ex
    | none => { meta with url := k }
  let ex := if meta.firstSeenDepth < ex.firstSeenDepth then { ex with firstSeenDepth := meta.firstSeenDepth } else ex
  let ex := if meta.kind ≠ "" then { ex with kind := meta.kind } else ex
  let ex := if meta.skipped ≠ "" then { ex with skipped := meta.skipped } else ex
  let ex := if sourcePage ≠ "" then { ex with sources := insertSource ex.sources (normalizeForKey sourcePage) } else ex
  { m with links := updateOrInsert k ex m.links }

/-- Model of `Memory.AllDiscovered`: snapshot of the link metas sorted by URL. -/
def Memory.allDiscovered (m : Memory) : List LinkMeta :=
  sortBy (fun a b => decide (a.url ≤ b.url)) (m.links.map Prod.snd)

/-! ## LinkExtractor: model of `extract.ExtractLinks` (src/unnamed/part_011)

The HTML tokenizer is an external collaborator; the candidate stream it
produces — the `(attribute value, kind)` pairs that `extractAttr` sees in
document order — is the model's input.  `processCandidate` is the body of
`extractAttr` for one candidate, including the `emit` closure with its
`seen` dedup map. -/

structure FoundLink where
  url : String
  kind : String
  skipReason : String
  raw : String
deriving DecidableEq, Repr

structure EmitState where
  seen : List String := []
  out : List FoundLink := []
deriving DecidableEq, Repr

/-- The `emit` closure of `ExtractLinks`. -/
def emit (st : EmitState) (raw : String) (resolved : Option URL) (kind skip : String) : EmitState :=
  let final :=
    match resolved with
    | some r => URL.render { r with fragment := "" }
    | none => ""
  let key := if skip ≠ "" then skip ++ "|" ++ kind ++ "|" ++ raw else final
  let key := if key = "" then "empty|" ++ kind ++ "|" ++ raw else key
  if st.seen.contains key then st
  else { seen := st.seen ++ [key],
         out := st.out ++ [{ url := final, kind := kind, skipReason := skip, raw := raw }] }

/-- The `isUnsupportedScheme` closure. -/
def isUnsupportedScheme (scheme : String) : Bool :=
  match strToLower scheme with
  | "http" | "https" | "" => false
  | _ => true

/-- The body of `extractAttr` for one raw attribute value.  Note that the
`empty` and `fragment_only` branches in the source do not return: control
falls through to the parse/resolve/emit sequence. -/
def processCandidate (base : URL) (st : EmitState) (rawVal kind : String) : EmitState :=
  let raw := trimSpace rawVal
  let st := if raw = "" then emit st raw none kind "empty" else st
  let st := if strStartsWith raw "#" then emit st raw none kind "fragment_only" else st
  match parseURL raw with
  | none => emit st raw none kind "invalid_url"
  | some parsed =>
    let resolved := base.resolveReference parsed
    if isUnsupportedScheme resolved.scheme then emit st raw none kind "unsupported_scheme"
    else emit st raw (some resolved) kind ""

/-- Model of `ExtractLinks` over the candidate stream produced by the tree walk:
parse the base URL, then run `extractAttr` on each candidate in document
order.  `none` models the base-URL parse error. -/
def extractLinks (baseURL : String) (candidates : List (String × String)) : Option (List FoundLink) :=
  match parseURL baseURL with
  | none => none
  | some base =>
    some (candidates.foldl (fun st c => processCandidate base st c.1 c.2) {}).out

/-! ## Checker: model of `check.Checker` (src/internal/check/check.go)

The HTTP transport is an oracle `transport : method → url → DoOutcome`.
`doProbe` is `Checker.do`: request build, transport call, body drain
(the drain has no observable effect in the model), result assembly. -/

inductive DoOutcome
  | fail (e : GoError)
  | resp (status : Int)
deriving DecidableEq, Repr

/-- Model of `Checker.do` (named `doProbe`; `do` is reserved in Lean). -/
def doProbe (transport : String → String → DoOutcome) (method link : String) : Result :=
  match parseURL link with
  | none => { url := link, err := some (.otherError "new request") }
  | some _ =>
    match transport method link with
    | .fail e => { url := link, err := some e }
    | .resp s => { url := link, statusCode := s, err := none }

/-- Model of `Checker.Check`: HEAD first when enabled; fall back to GET on status
400/405; after that, if the result carries an error that `errors.As`
recognizes as `*http.ProtocolError`, do one GET and return it; otherwise
return the result as-is. -/
def check (headFirst : Bool) (transport : String → String → DoOutcome) (link : String) : Result :=
  if headFirst then
    let res := doProbe transport "HEAD" link
    let res :=
      if res.err = none ∧ (res.statusCode = 405 ∨ res.statusCode = 400) then
        doProbe transport "GET" link
      else res
    match res.err with
    | some (.protocolError _) => doProbe transport "GET" link
    | _ => res
  else doProbe transport "GET" link

/-! ## RateLimiter: model of `limiter.PerHost` (src/internal/infra/limiter/limiter.go)

A `tokenBucket` is a buffered channel of capacity `rate`; `tokens` is the
number of tokens currently buffered (`newTokenBucket` starts empty; the
refill goroutine tops it up once per second — refill is a separate
transition and not part of `Take`).  `take` returns:
`immediate` when the code returns nil without touching any bucket,
`acquired` when a host token was consumed, and `blocked` when the select
would block (no token buffered yet). -/

structure TokenBucket where
  capacity : Nat
  tokens : Nat
deriving DecidableEq, Repr

/-- Model of `newTokenBucket`: channel of capacity `rate`, initially empty. -/
def newTokenBucket (rate : Nat) : TokenBucket :=
  { capacity := rate, tokens := 0 }

/-- One refill tick: add up to `rate` tokens, discarding overflow. -/
def TokenBucket.refillTick (tb : TokenBucket) : TokenBucket :=
  { tb with tokens := min (tb.tokens + tb.capacity) tb.capacity }

structure PerHost where
  globalRate : Nat
  rate : Nat
  global : TokenBucket
  host : List (String × TokenBucket)
deriving DecidableEq, Repr

/-- Model of `limiter.New` with the `<= 0` defaulting applied by the caller side
(rates are natural numbers here; `0` maps to the defaults as in Go). -/
def PerHost.new (globalRate perHostRate : Nat) : PerHost :=
  let globalRate := if globalRate = 0 then 10 else globalRate
  let perHostRate := if perHostRate = 0 then 2 else perHostRate
  { globalRate := globalRate, rate := perHostRate,
    global := newTokenBucket globalRate, host := [] }

inductive TakeOutcome
  | immediate (l : PerHost)
  | acquired (l : PerHost)
  | blocked (l : PerHost)
deriving DecidableEq, Repr

def TakeOutcome.state : TakeOutcome → PerHost
  | .immediate l => l
  | .acquired l => l
  | .blocked l => l

def PerHost.setHostBucket (l : PerHost) (h : String) (tb : TokenBucket) : PerHost :=
  { l with host := (l.host.filter (fun p => p.1 ≠ h)) ++ [(h, tb)] }

/-- Model of `PerHost.Take`: return nil at once for an unparsable URL or empty
host; otherwise find-or-create the host bucket (keyed by `u.Hostname()`,
not lowercased) and take one token from it.  The `global` bucket is
never consulted. -/
def PerHost.take (l : PerHost) (rawURL : String) : TakeOutcome :=
  match parseURL rawURL with
  | none => .immediate l
  | some u =>
    let host := u.hostname
    if host = "" then .immediate l
    else
      let tb :=
        match l.host.find? (fun p => p.1 = host) with
        | some p => p.2
        | none => newTokenBucket l.rate
      match tb.tokens with
      | 0 => .blocked (l.setHostBucket host tb)
      | n + 1 => .acquired (l.setHostBucket host { tb with tokens := n })

/-! ## Orchestrator report helpers (src/internal/usecase/orchestrate.go) -/

/-- Model of `usecase.summarize`: bucket counts `(ok, redirects, deadHTTP, errors)`. -/
def summarize (all : List Result) : Nat × Nat × Nat × Nat :=
  all.foldl
    (fun acc r =>
      let (ok, redir, deadHTTP, errs) := acc
      if r.err ≠ none then (ok, redir, deadHTTP, errs + 1)
      else if (200 : Int) ≤ r.statusCode ∧ r.statusCode ≤ (299 : Int) then (ok + 1, redir, deadHTTP, errs)
      else if (300 : Int) ≤ r.statusCode ∧ r.statusCode ≤ (399 : Int) then (ok, redir + 1, deadHTTP, errs)
      else if (400 : Int) ≤ r.statusCode then (ok, redir, deadHTTP + 1, errs)
      else (ok, redir, deadHTTP, errs))
    (0, 0, 0, 0)

/-- Model of `usecase.codeOrErr`. -/
def codeOrErr (r : Result) : String :=
  if r.err ≠ none then "ERR" else toString r.statusCode

/-- Model of `firstSourceFor`: scan the discovered list for the URL and return the
first source the `for s := range m.Sources` loop yields.  Go map
iteration order is unspecified, so the order in which the sources set is
enumerated is the explicit parameter `iter` (for a set `s`, `iter s` is
`s` in some order). -/
def firstSourceFor (iter : List String → List String) : List LinkMeta → String → String
  | [], _ => ""
  | m :: rest, url =>
    if m.url = url then
      match iter m.sources with
      | s :: _ => s
      | [] => firstSourceFor iter rest url
    else firstSourceFor iter rest url

/-- Left-pad-free Go `%-5s`: pad right with spaces to width 5. -/
def padRight5 (s : String) : String :=
  s ++ String.mk (List.replicate (5 - s.length) ' ')

/-- The dead-link report lines printed by `Orchestrator.Run` (the loop
over the sorted results), as a list of output lines. -/
def deadReportLines (iter : List String → List String)
    (discovered : List LinkMeta) (all : List Result) : List String :=
  (sortBy (fun a b => decide (a.url ≤ b.url)) all).foldl
    (fun acc r =>
      if r.isDead then
        let acc := acc ++ ["DEAD " ++ padRight5 (codeOrErr r) ++ " " ++ r.url]
        let acc :=
          match r.err with
          | some e => acc ++ ["      " ++ (match e with | .protocolError m => m | .otherError m => m)]
          | none => acc
        match firstSourceFor iter discovered r.url with
        | "" => acc
        | src => acc ++ ["       found on : " ++ src]
      else acc)
    []

/-! ## Crawler: model of `usecase.Crawler.Crawl` (src/internal/usecase/crawl.go)

The HTTP client, the extractor and the limiter are the crawler's
interface fields (`ports.HTTPClient`, `ports.Extractor`, `ports.Limiter`)
and appear as oracle functions in `CrawlWorld`.  A fetch outcome is a
request-build error, a transport error, or a response with a content type
and an abstract body (the body type `β` is whatever the extractor
consumes; the production extractor consumes the candidate stream).
The crawl loop is fuel-indexed: `none` means the fuel bound was reached
before the Go loop would have exited; every theorem about a completed
crawl takes the `some` result. -/

structure PageJob where
  url : String
  depth : Nat
deriving DecidableEq, Repr

structure CrawlCfg where
  maxDepth : Nat
  maxPages : Nat
  checkAssets : Bool
deriving DecidableEq, Repr

inductive FetchOutcome (β : Type)
  | buildErr
  | netErr
  | resp (contentType : String) (body : β)

structure CrawlWorld (β : Type) where
  fetch : String → FetchOutcome β
  extract : String → β → Option (List FoundLink)
  take : String → Option String

/-- The self-referential page record every post-mark branch stores. -/
def selfMeta (job : PageJob) : LinkMeta :=
  { url := job.url, firstSeenDepth := job.depth, kind := "page" }

/-- One iteration of the inner `for _, fl := range found` loop: record a
skipped link under its raw text, drop an asset when asset checking is
off, record a checkable link, and enqueue a same-host page link while
depth budget remains. -/
def processOne (cfg : CrawlCfg) (startHost : String) (job : PageJob)
    (acc : Memory × List PageJob) (fl : FoundLink) : Memory × List PageJob :=
  let (st, jobs) := acc
  if fl.skipReason ≠ "" || fl.url = "" then
    (st.recordDiscoveredLink
      { url := fl.raw, firstSeenDepth := job.depth, kind := fl.kind, skipped := fl.skipReason }
      job.url, jobs)
  else if fl.kind = "asset" && !cfg.checkAssets then (st, jobs)
  else
    let st := st.recordDiscoveredLink
      { url := fl.url, firstSeenDepth := job.depth, kind := fl.kind } job.url
    if fl.kind ≠ "page" then (st, jobs)
    else
      match parseURL fl.url with
      | none => (st, jobs)
      | some u =>
        let host := strToLower u.hostname
        if host ≠ "" && host ≠ startHost then (st, jobs)
        else if job.depth < cfg.maxDepth then
          (st, jobs ++ [{ url := fl.url, depth := job.depth + 1 }])
        else (st, jobs)

/-- The inner `for _, fl := range found` loop of `Crawl`. -/
def processFound (cfg : CrawlCfg) (startHost : String) (job : PageJob)
    (st : Memory) (found : List FoundLink) : Memory × List PageJob :=
  found.foldl (processOne cfg startHost job) (st, [])

/-- The `for len(queue) > 0 && crawled < maxPages` loop of `Crawl`.
The limiter's answer is bound and discarded exactly as the source's
`_ = c.limiter.Take(ctx, job.URL)` discards it. -/
def crawlLoop (cfg : CrawlCfg) (w : CrawlWorld β) (startHost : String) :
    Nat → List PageJob → Nat → Memory → Option Memory
  | 0, _, _, _ => none
  | _ + 1, [], _, st => some st
  | fuel + 1, job :: rest, crawled, st =>
    if ¬ crawled < cfg.maxPages then some st
    else if job.depth > cfg.maxDepth then crawlLoop cfg w startHost fuel rest crawled st
    else
      match st.markVisitedPage job.url with
      | (false, st) => crawlLoop cfg w startHost fuel rest crawled st
      | (true, st) =>
        let crawled := crawled + 1
        let _takeErr := w.take job.url
        match w.fetch job.url with
        | .buildErr =>
          crawlLoop cfg w startHost fuel rest crawled (st.recordDiscoveredLink (selfMeta job) job.url)
        | .netErr =>
          crawlLoop cfg w startHost fuel rest crawled (st.recordDiscoveredLink (selfMeta job) job.url)
        | .resp ct body =>
          if ¬ (strContains (strToLower ct) "text/html" || strContains (strToLower ct) "application/xhtml") then
            crawlLoop cfg w startHost fuel rest crawled (st.recordDiscoveredLink (selfMeta job) job.url)
          else
            match w.extract job.url body with
            | none =>
              crawlLoop cfg w startHost fuel rest crawled (st.recordDiscoveredLink (selfMeta job) job.url)
            | some found =>
              let st := st.recordDiscoveredLink (selfMeta job) job.url
              let (st, newJobs) := processFound cfg startHost job st found
              crawlLoop cfg w startHost fuel (rest ++ newJobs) crawled st

/-- Model of `Crawler.Crawl`: parse the start URL (an error here is the only
error return), lowercase its hostname, run the BFS loop from
`[(startURL, 0)]` on the given store, and return the start host. -/
def crawl (fuel : Nat) (cfg : CrawlCfg) (w : CrawlWorld β) (startUrl : String) (store : Memory) :
    Except String (Option (String × Memory)) :=
  match parseURL startUrl with
  | none => .error "parse start url"
  | some start =>
    let startHost := strToLower start.hostname
    match crawlLoop cfg w startHost fuel [{ url := startUrl, depth := 0 }] 0 store with
    | none => .ok none
    | some st => .ok (some (startHost, st))

/-- The start-URL validation at the top of `app.Run`
(src/internal/app/run.go): an empty start URL is an immediate error. -/
def appRunStartError (startURL : String) : Option String :=
  if startURL = "" then some "start url is required" else none

/-! ## Check-phase worker pool (src/internal/usecase/orchestrate.go:89-117
and src/internal/app/run.go:85-176)

Both Runs build the same channel structure: an unbuffered `jobs` channel,
a `results` channel buffered to `concurrency`, `concurrency` workers
ranging over `jobs` and sending to `results`, a producer goroutine that
sends every job and closes `jobs`, and the main goroutine ranging over
`results`.  `app.Run` additionally spawns `go func() { wg.Wait();
close(results) }()`; `Orchestrator.Run` does not.  `hasCloser` records
which of the two programs is being run; every other field is the channel
and goroutine state.  `poolStep` gives the enabled transitions of any
scheduler interleaving; `none` means the action is blocked or absent. -/

structure PoolState where
  jobsRemaining : Nat
  jobsClosed : Bool
  idleWorkers : Nat
  busyWorkers : Nat
  resultsBuf : Nat
  resultsCap : Nat
  resultsClosed : Bool
  collected : Nat
  collectorDone : Bool
  hasCloser : Bool
deriving DecidableEq, Repr

inductive PoolAct
  | recvJob
  | closeJobs
  | workerSend
  | workerExit
  | closeResults
  | collectRecv
  | collectFinish
deriving DecidableEq, Repr

def poolStep : PoolAct → PoolState → Option PoolState
  | .recvJob, s =>
    if s.jobsRemaining > 0 ∧ s.idleWorkers > 0 then
      some { s with jobsRemaining := s.jobsRemaining - 1,
                    idleWorkers := s.idleWorkers - 1,
                    busyWorkers := s.busyWorkers + 1 }
    else none
  | .closeJobs, s =>
    if s.jobsRemaining = 0 ∧ ¬ s.jobsClosed then some { s with jobsClosed := true } else none
  | .workerSend, s =>
    if s.busyWorkers > 0 ∧ s.resultsBuf < s.resultsCap then
      some { s with busyWorkers := s.busyWorkers - 1,
                    idleWorkers := s.idleWorkers + 1,
                    resultsBuf := s.resultsBuf + 1 }
    else none
  | .workerExit, s =>
    if s.jobsClosed ∧ s.jobsRemaining = 0 ∧ s.idleWorkers > 0 then
      some { s with idleWorkers := s.idleWorkers - 1 }
    else none
  | .closeResults, s =>
    if s.hasCloser ∧ s.idleWorkers = 0 ∧ s.busyWorkers = 0 ∧ ¬ s.resultsClosed then
      some { s with resultsClosed := true }
    else none
  | .collectRecv, s =>
    if s.resultsBuf > 0 ∧ ¬ s.collectorDone then
      some { s with resultsBuf := s.resultsBuf - 1, collected := s.collected + 1 }
    else none
  | .collectFinish, s =>
    if s.resultsBuf = 0 ∧ s.resultsClosed ∧ ¬ s.collectorDone then
      some { s with collectorDone := true }
    else none

/-- Run a schedule: a (finite prefix of a) scheduler interleaving. -/
def runPool : List PoolAct → PoolState → Option PoolState
  | [], s => some s
  | a :: acts, s =>
    match poolStep a s with
    | none => none
    | some s' => runPool acts s'

/-- The check-phase start state of `Orchestrator.Run` with `n` checkable
links and `conc` workers: jobs still to send, all workers idle at the
`range jobs`, no `wg.Wait`/`close(results)` goroutine spawned. -/
def orchPoolInit (n conc : Nat) : PoolState :=
  { jobsRemaining := n, jobsClosed := false, idleWorkers := conc, busyWorkers := 0,
    resultsBuf := 0, resultsCap := conc, resultsClosed := false, collected := 0,
    collectorDone := false, hasCloser := false }

/-- The check-phase start state of `app.Run`: identical except that the
`go func() { wg.Wait(); close(results) }()` goroutine exists. -/
def appPoolInit (n conc : Nat) : PoolState :=
  { orchPoolInit n conc with hasCloser := true }

/-! ## Classification predicates, invariants and concrete instances used
by the theorems below -/

/-- Spec bucket: errors (`error != nil`). -/
def isErrResult (r : Result) : Bool := decide (r.err ≠ none)

/-- Spec bucket: OK (error-free, 2xx). -/
def isOKResult (r : Result) : Bool :=
  decide (r.err = none ∧ (200 : Int) ≤ r.statusCode ∧ r.statusCode ≤ (299 : Int))

/-- Spec bucket: Redirect (error-free, 3xx). -/
def isRedirectResult (r : Result) : Bool :=
  decide (r.err = none ∧ (300 : Int) ≤ r.statusCode ∧ r.statusCode ≤ (399 : Int))

/-- Spec bucket: DeadHTTP (error-free, status at least 400). -/
def isDeadHTTPResult (r : Result) : Bool :=
  decide (r.err = none ∧ (400 : Int) ≤ r.statusCode)

/-- A transport whose HEAD calls fail with a non-protocol transport error
(a dial error is a `*net.OpError` inside a `*url.Error`, which
`errors.As` does not match against `*http.ProtocolError`) and whose GET
calls return 200. -/
def headFailTransport : String → String → DoOutcome := fun method _ =>
  if method = "HEAD" then .fail (.otherError "dial tcp: connection refused")
  else .resp 200

/-- A discovered dead link with two recorded source pages. -/
def deadMeta : LinkMeta :=
  { url := "http://site.example/dead", firstSeenDepth := 1,
    sources := ["http://site.example/", "http://site.example/p1"], kind := "page" }

/-- The check result for `deadMeta`'s URL. -/
def deadResult : Result := { url := "http://site.example/dead", statusCode := 404 }

/-- A crawl world whose rate limiter answers every `Take` with a
cancellation error, whose start page is HTML linking to `/p2`, and whose
every other fetch fails.  The extractor is the production one. -/
def cancelWorld : CrawlWorld (List (String × String)) :=
  { fetch := fun u =>
      if u = "http://site.example/" then .resp "text/html; charset=utf-8" [("/p2", "page")]
      else .netErr,
    extract := fun base body => extractLinks base body,
    take := fun _ => some "context canceled" }

/-- A crawl world in which every fetch fails with a transport error (as
happens for the empty URL: `client.Do` fails with "no Host in request
URL") and the limiter always lets the caller proceed. -/
def emptyStartWorld : CrawlWorld Unit :=
  { fetch := fun _ => .netErr, extract := fun _ _ => none, take := fun _ => none }

/-- The store reached by crawling the empty start URL in `emptyStartWorld`. -/
def emptyStartStore : Memory :=
  { visited := [""],
    links := [("", { url := "", firstSeenDepth := 0, sources := [], kind := "page", skipped := "" })] }

/-- The keys of the discovered-links map. -/
def linkKeys (m : Memory) : List String := m.links.map Prod.fst

/-- The C8 store invariant: the visited set has no duplicates and every
visited key has an entry in the discovered-links map. -/
def crawlInv (m : Memory) : Prop :=
  m.visited.Nodup ∧ ∀ k ∈ m.visited, k ∈ linkKeys m

/-- Apply a sequence of `RecordDiscoveredLink` calls. -/
def applyRecs (m : Memory) : List (LinkMeta × String) → Memory
  | [] => m
  | (meta, src) :: rs => applyRecs (m.recordDiscoveredLink meta src) rs

/-- The merge `RecordDiscoveredLink` performs on the entry at the
normalized key (the four conditional updates of the source). -/
def mergeEntry (meta : LinkMeta) (sourcePage : String) (ex : LinkMeta) : LinkMeta :=
  let ex := if meta.firstSeenDepth < ex.firstSeenDepth then { ex with firstSeenDepth := meta.firstSeenDepth } else ex
  let ex := if meta.kind ≠ "" then { ex with kind := meta.kind } else ex
  let ex := if meta.skipped ≠ "" then { ex with skipped := meta.skipped } else ex
  if sourcePage ≠ "" then { ex with sources := insertSource ex.sources (normalizeForKey sourcePage) } else ex

/-- The order-insensitive view of a link entry: URL, first-seen depth and
the sources as a finite set. -/
def entryView (e : LinkMeta) : String × Nat × Finset String :=
  (e.url, e.firstSeenDepth, e.sources.toFinset)

/-- Two records in the C9 order-dependence counterexample: same
normalized key, same depth, different non-empty kinds. -/
def recPage : LinkMeta := { url := "http://site.example/x", firstSeenDepth := 0, kind := "page" }

/-- See `recPage`. -/
def recAsset : LinkMeta := { url := "http://site.example/x", firstSeenDepth := 0, kind := "asset" }

/-- The C1 invariant: the orchestrator pool has no closer goroutine, so
the results channel is never closed and the collector never finishes. -/
def poolInv (s : PoolState) : Prop :=
  s.hasCloser = false ∧ s.resultsClosed = false ∧ s.collectorDone = false

/-- A complete schedule of `app.Run`'s check phase with two links and two
workers, ending with the closer and the collector finishing. -/
def appSchedule : List PoolAct :=
  [.recvJob, .workerSend, .collectRecv, .recvJob, .workerSend, .collectRecv,
   .closeJobs, .workerExit, .workerExit, .closeResults, .collectFinish]

/-- The store reached by crawling `http://site.example/` in
`cancelWorld`: both the start page and `/p2` are visited and recorded,
although every `Take` answered with a cancellation error. -/
def cancelStore : Memory :=
  { visited := ["http://site.example/", "http://site.example/p2"],
    links := [("http://site.example/",
               { url := "http://site.example/", firstSeenDepth := 0,
                 sources := ["http://site.example/"], kind := "page", skipped := "" }),
              ("http://site.example/p2",
               { url := "http://site.example/p2", firstSeenDepth := 0,
                 sources := ["http://site.example/", "http://site.example/p2"],
                 kind := "page", skipped := "" })] }

/-- The effect of one merge on the order-insensitive entry view: keep
the minimum depth and set-insert the normalized source page. -/
def viewMerge (d : Nat) (src : String) : String × Nat × Finset String → String × Nat × Finset String
  | (u, d0, s) => (u, min d d0, if src = "" then s else insert (normalizeForKey src) s)

/-- The evolution of the entry view at key `k` under one
`RecordDiscoveredLink` with depth `d` and source `src`: a fresh key is
inserted with its own depth and then merged with itself. -/
def viewStep (k : String) (a : Option (String × Nat × Finset String)) (r : Nat × String) :
    Option (String × Nat × Finset String) :=
  match a with
  | none => some (viewMerge r.1 r.2 (k, r.1, ∅))
  | some v => some (viewMerge r.1 r.2 v)

/-! ## Theorems -/

/-- Accumulator form of `summarize`: folding from `(a, b, c, d)` adds the
per-bucket counts of the classification predicates. -/
theorem summarize_foldl_counts (all : List Result) : ∀ a b c d : Nat,
    all.foldl
      (fun acc r =>
        let (ok, redir, deadHTTP, errs) := acc
        if r.err ≠ none then (ok, redir, deadHTTP, errs + 1)
        else if (200 : Int) ≤ r.statusCode ∧ r.statusCode ≤ (299 : Int) then (ok + 1, redir, deadHTTP, errs)
        else if (300 : Int) ≤ r.statusCode ∧ r.statusCode ≤ (399 : Int) then (ok, redir + 1, deadHTTP, errs)
        else if (400 : Int) ≤ r.statusCode then (ok, redir, deadHTTP + 1, errs)
        else (ok, redir, deadHTTP, errs))
      (a, b, c, d)
      = (a + all.countP isOKResult, b + all.countP isRedirectResult,
         c + all.countP isDeadHTTPResult, d + all.countP isErrResult) := by
  induction all with
  | nil => intro a b c d; simp
  | cons r t ih =>
    intro a b c d
    simp only [List.foldl_cons, List.countP_cons]
    by_cases he : r.err = none
    · by_cases h2 : (200 : Int) ≤ r.statusCode ∧ r.statusCode ≤ (299 : Int)
      · simp only [he, h2, ih, isOKResult, isRedirectResult, isDeadHTTPResult, isErrResult]
        simp [h2.1, h2.2, he]
        omega
      · by_cases h3 : (300 : Int) ≤ r.statusCode ∧ r.statusCode ≤ (399 : Int)
        · simp only [he, h2, h3, ih, isOKResult, isRedirectResult, isDeadHTTPResult, isErrResult]
          simp [h2, h3, he]
          omega
        · by_cases h4 : (400 : Int) ≤ r.statusCode
          · simp only [he, h2, h3, h4, ih, isOKResult, isRedirectResult, isDeadHTTPResult, isErrResult]
            simp [h2, h3, h4, he]
            omega
          · simp only [he, h2, h3, h4, ih, isOKResult, isRedirectResult, isDeadHTTPResult, isErrResult]
            simp [h2, h3, h4, he]
    · simp only [he, ih, isOKResult, isRedirectResult, isDeadHTTPResult, isErrResult]
      simp [he]
      omega

/-- C10: `summarize` counts every errored result as Error and buckets
error-free results as OK (2xx), Redirect (3xx) and DeadHTTP (≥ 400); an
error-free result with a status below 200 falls into no bucket, so on
the one-element list with status 100 all four buckets are 0 and their
sum is strictly below the checked-links count. -/
theorem C10_summarize_classification :
    (∀ all : List Result,
       summarize all = (all.countP isOKResult, all.countP isRedirectResult,
                        all.countP isDeadHTTPResult, all.countP isErrResult)) ∧
    summarize [{ url := "u", statusCode := 100 }] = (0, 0, 0, 0) ∧
    0 + 0 + 0 + 0 < ([({ url := "u", statusCode := 100 } : Result)]).length := by
  refine ⟨fun all => ?_, by decide, by decide⟩
  have h := summarize_foldl_counts all 0 0 0 0
  simpa [summarize] using h

/-- C5: the `empty` and `fragment_only` branches of `extractAttr` do not
stop processing: an empty href yields its skip finding AND a checkable
finding resolving to the base URL, and a `#`-prefixed href yields its
skip finding AND a checkable finding for the base URL with the fragment
stripped.  (The claim says only the skip finding is emitted.) -/
theorem C5_empty_and_fragment_fall_through :
    extractLinks "https://example.com/base/" [("", "page")] =
      some [{ url := "", kind := "page", skipReason := "empty", raw := "" },
            { url := "https://example.com/base/", kind := "page", skipReason := "", raw := "" }] ∧
    extractLinks "https://example.com/base/" [("#section", "page")] =
      some [{ url := "", kind := "page", skipReason := "fragment_only", raw := "#section" },
            { url := "https://example.com/base/", kind := "page", skipReason := "", raw := "#section" }] := by
  exact ⟨by decide, by decide⟩

/-- C4: the `found on` line of the dead-link report depends on the
iteration order of the Go sources map.  `id` and `List.reverse` are two
enumerations of the same two-element sources set of `deadMeta`; under
one the report names one source page, under the other the other, so the
emitted output is not a function of the discovered-link map and the
check results alone. -/
theorem C4_found_on_depends_on_map_iteration_order :
    deadReportLines id [deadMeta] [deadResult] =
      ["DEAD 404   http://site.example/dead",
       "       found on : http://site.example/"] ∧
    deadReportLines List.reverse [deadMeta] [deadResult] =
      ["DEAD 404   http://site.example/dead",
       "       found on : http://site.example/p1"] ∧
    deadReportLines id [deadMeta] [deadResult] ≠
      deadReportLines List.reverse [deadMeta] [deadResult] := by
  refine ⟨by decide, by decide, by decide⟩

/-- C6 counterexample: with head-first enabled and a HEAD call failing at
the transport level with a non-protocol error (a refused connection),
`Check` returns the failed HEAD result untouched even though a GET would
have returned 200; the claim says any non-status HEAD failure is retried
with GET. -/
theorem C6_counterexample_transport_error_not_retried :
    check true headFailTransport "http://site.example/" =
      { url := "http://site.example/", statusCode := 0,
        err := some (.otherError "dial tcp: connection refused") } ∧
    doProbe headFailTransport "GET" "http://site.example/" =
      { url := "http://site.example/", statusCode := 200, err := none } := by
  exact ⟨by decide, by decide⟩

/-- C6 amended: with `headFirst`, `Check` falls back to GET exactly when
the HEAD result is error-free with status 400 or 405, or when its error
is an `*http.ProtocolError`; a HEAD failure with any other error is
returned as-is (no GET retry), and every other HEAD outcome is returned
as-is.  Without `headFirst` it issues GET directly. -/
theorem C6_headfirst_fallback_protocol
    (t : String → String → DoOutcome) (link : String) :
    ((doProbe t "HEAD" link).err = none →
       (((doProbe t "HEAD" link).statusCode = 400 ∨ (doProbe t "HEAD" link).statusCode = 405) →
          check true t link = doProbe t "GET" link) ∧
       ((doProbe t "HEAD" link).statusCode ≠ 400 → (doProbe t "HEAD" link).statusCode ≠ 405 →
          check true t link = doProbe t "HEAD" link)) ∧
    (∀ m, (doProbe t "HEAD" link).err = some (.protocolError m) →
       check true t link = doProbe t "GET" link) ∧
    (∀ m, (doProbe t "HEAD" link).err = some (.otherError m) →
       check true t link = doProbe t "HEAD" link) ∧
    check false t link = doProbe t "GET" link := by
  refine ⟨?_, ?_, ?_, by simp [check]⟩
  · intro he
    constructor
    · intro hs
      have hcond : (doProbe t "HEAD" link).err = none ∧
          ((doProbe t "HEAD" link).statusCode = 405 ∨ (doProbe t "HEAD" link).statusCode = 400) :=
        ⟨he, hs.elim (fun h => Or.inr h) (fun h => Or.inl h)⟩
      simp only [check, if_true]
      rw [if_pos hcond]
      cases hg : (doProbe t "GET" link).err with
      | none => simp [hg]
      | some e =>
        cases e with
        | protocolError m => simp [hg]
        | otherError m => simp [hg]
    · intro h4 h5
      have hcond : ¬ ((doProbe t "HEAD" link).err = none ∧
          ((doProbe t "HEAD" link).statusCode = 405 ∨ (doProbe t "HEAD" link).statusCode = 400)) := by
        rintro ⟨-, h | h⟩
        · exact h5 h
        · exact h4 h
      simp only [check, if_true]
      rw [if_neg hcond]
      simp [he]
  · intro m hm
    have hcond : ¬ ((doProbe t "HEAD" link).err = none ∧
        ((doProbe t "HEAD" link).statusCode = 405 ∨ (doProbe t "HEAD" link).statusCode = 400)) := by
      rintro ⟨h, -⟩
      rw [hm] at h
      exact Option.noConfusion h
    simp only [check, if_true]
    rw [if_neg hcond]
    simp [hm]
  · intro m hm
    have hcond : ¬ ((doProbe t "HEAD" link).err = none ∧
        ((doProbe t "HEAD" link).statusCode = 405 ∨ (doProbe t "HEAD" link).statusCode = 400)) := by
      rintro ⟨h, -⟩
      rw [hm] at h
      exact Option.noConfusion h
    simp only [check, if_true]
    rw [if_neg hcond]
    simp [hm]

/-- Witness for `C6_headfirst_fallback_protocol` at `headFailTransport`:
the HEAD error is a non-protocol error, so `Check` returns the HEAD
result. -/
theorem C6_headfirst_fallback_protocol_witness :
    check true headFailTransport "http://site.example/" =
      doProbe headFailTransport "HEAD" "http://site.example/" :=
  (C6_headfirst_fallback_protocol headFailTransport "http://site.example/").2.2.1
    "dial tcp: connection refused" (by decide)

/-- C2: `PerHost.Take` never consults the global pool: for every limiter
state and URL the global bucket is unchanged by `Take`, and from a state
whose global pool is empty but whose host bucket holds a token, `Take`
succeeds consuming only the host token.  (The claim says a successful
`Take` always consumes one global token and one host token.) -/
theorem C2_take_never_consumes_global :
    (∀ (l : PerHost) (raw : String), ((l.take raw).state).global = l.global) ∧
    PerHost.take
      { globalRate := 10, rate := 2, global := newTokenBucket 10,
        host := [("example.com", { capacity := 2, tokens := 1 })] }
      "https://example.com/" =
      .acquired { globalRate := 10, rate := 2, global := { capacity := 10, tokens := 0 },
                  host := [("example.com", { capacity := 2, tokens := 0 })] } := by
  constructor
  · intro l raw
    unfold PerHost.take
    split
    · rfl
    · dsimp only
      split
      · rfl
      · split <;> simp [TakeOutcome.state, PerHost.setHostBucket]
  · decide

/-- Every pool action preserves the C1 invariant: without the closer
goroutine the results channel can never be closed, hence the collector
can never finish its `range`. -/
theorem poolStep_preserves_poolInv (a : PoolAct) (s s' : PoolState)
    (h : poolStep a s = some s') (hs : poolInv s) : poolInv s' := by
  obtain ⟨h1, h2, h3⟩ := hs
  cases a <;> simp only [poolStep] at h <;> split at h <;> cases h <;>
    first
      | exact ⟨h1, h2, h3⟩
      | (rename_i hc; exact absurd hc.1 (by simp [h1]))
      | (rename_i hc; exact absurd hc.2.1 (by simp [h2]))

/-- Lemma: `runPool` preserves the C1 invariant along any schedule. -/
theorem runPool_preserves_poolInv : ∀ (acts : List PoolAct) (s s' : PoolState),
    runPool acts s = some s' → poolInv s → poolInv s'
  | [], s, s', h, hs => by
    simp only [runPool, Option.some.injEq] at h
    exact h ▸ hs
  | a :: acts, s, s', h, hs => by
    simp only [runPool] at h
    cases hstep : poolStep a s with
    | none => rw [hstep] at h; cases h
    | some s1 =>
      rw [hstep] at h
      exact runPool_preserves_poolInv acts s1 s' h (poolStep_preserves_poolInv a s s1 hstep hs)

/-- C1: in `Orchestrator.Run`'s check phase no schedule ever closes the
results channel or lets the collector finish — the `wg.Wait();
close(results)` goroutine is missing — so the summary is never printed
and `Run` never returns; the same machine with `app.Run`'s closer
goroutine runs to completion collecting one result per link. -/
theorem C1_orchestrator_collector_never_finishes (n conc : Nat)
    (acts : List PoolAct) (s' : PoolState)
    (h : runPool acts (orchPoolInit n conc) = some s') :
    (s'.resultsClosed = false ∧ s'.collectorDone = false) ∧
    (runPool appSchedule (appPoolInit 2 2)).map (fun s => (s.collectorDone, s.collected)) =
      some (true, 2) := by
  have hinv := runPool_preserves_poolInv acts (orchPoolInit n conc) s' h ⟨rfl, rfl, rfl⟩
  exact ⟨⟨hinv.2.1, hinv.2.2⟩, by decide⟩

/-- Witness for `C1_orchestrator_collector_never_finishes` on the empty
schedule with 2 links and 20 workers. -/
theorem C1_orchestrator_collector_never_finishes_witness :
    ((orchPoolInit 2 20).resultsClosed = false ∧ (orchPoolInit 2 20).collectorDone = false) ∧
    (runPool appSchedule (appPoolInit 2 2)).map (fun s => (s.collectorDone, s.collected)) =
      some (true, 2) :=
  C1_orchestrator_collector_never_finishes 2 20 [] (orchPoolInit 2 20) rfl

/-- C7 counterexample: `url.Parse("")` succeeds, so `Crawler.Crawl` with
the empty start URL does not return an error: it proceeds, attempts the
page (one visited page), absorbs the fetch failure per-page and returns
nil.  (The claim says Crawl returns an error and aborts before any page
is fetched.) -/
theorem C7_counterexample_empty_start_url_not_fatal :
    crawl 4 { maxDepth := 2, maxPages := 200, checkAssets := true } emptyStartWorld "" {} =
      .ok (some ("", emptyStartStore)) ∧
    emptyStartStore.visitedCount = 1 := by
  exact ⟨rfl, rfl⟩

/-- C7 amended: an unparsable start URL is fatal — `Crawl` returns the
parse error before visiting anything — and `app.Run` rejects the empty
start URL before any fetch; but `Crawler.Crawl` itself accepts the empty
start URL (see the counterexample). -/
theorem C7_amended_unparsable_start_fatal (s : String) (h : parseURL s = none)
    (fuel : Nat) (cfg : CrawlCfg) (w : CrawlWorld β) (store : Memory) :
    crawl fuel cfg w s store = .error "parse start url" ∧
    appRunStartError "" = some "start url is required" := by
  refine ⟨?_, rfl⟩
  unfold crawl
  rw [h]

/-- Witness for `C7_amended_unparsable_start_fatal` at the start URL
`://x` ("missing protocol scheme"). -/
theorem C7_amended_unparsable_start_fatal_witness :
    crawl 4 { maxDepth := 2, maxPages := 200, checkAssets := true } emptyStartWorld "://x" {} =
      .error "parse start url" ∧
    appRunStartError "" = some "start url is required" :=
  C7_amended_unparsable_start_fatal "://x" (by decide) 4
    { maxDepth := 2, maxPages := 200, checkAssets := true } emptyStartWorld {}

/-- The crawl loop never reads the limiter's answer: two worlds agreeing
on fetch and extract produce identical crawls whatever their limiters
answer (the source binds `_ = c.limiter.Take(ctx, job.URL)` and drops
it). -/
theorem crawlLoop_take_irrelevant (cfg : CrawlCfg) (w1 w2 : CrawlWorld β)
    (hf : w1.fetch = w2.fetch) (he : w1.extract = w2.extract) (sh : String) :
    ∀ (fuel : Nat) (queue : List PageJob) (crawled : Nat) (st : Memory),
      crawlLoop cfg w1 sh fuel queue crawled st = crawlLoop cfg w2 sh fuel queue crawled st := by
  intro fuel
  induction fuel with
  | zero => intro _ _ _; rfl
  | succ n ih =>
    intro queue crawled st
    cases queue with
    | nil => rfl
    | cons job rest =>
      simp only [crawlLoop, ← hf, ← he]
      split
      · rfl
      · split
        · exact ih _ _ _
        · cases hmv : st.markVisitedPage job.url with
          | mk b st1 =>
            cases b
            · exact ih _ _ _
            · cases hft : w1.fetch job.url with
              | buildErr => dsimp only; exact ih _ _ _
              | netErr => dsimp only; exact ih _ _ _
              | resp ct body =>
                dsimp only
                split
                · exact ih _ _ _
                · cases hex : w1.extract job.url body with
                  | none => dsimp only; exact ih _ _ _
                  | some found => dsimp only; exact ih _ _ _

/-- C3: `Crawler.Crawl` discards the rate limiter's error.  The crawl
result is invariant under the limiter oracle, and in `cancelWorld` —
where every `Take` answers a cancellation error — the crawl still
fetches the start page, continues to the queued `/p2`, visits both
pages and returns without error.  (The claim says a cancellation error
from `Take` aborts the whole crawl and is propagated.) -/
theorem C3_crawl_discards_limiter_error :
    (∀ (β : Type) (fuel : Nat) (cfg : CrawlCfg) (f : String → FetchOutcome β)
       (e : String → β → Option (List FoundLink)) (t1 t2 : String → Option String)
       (startUrl : String) (store : Memory),
        crawl fuel cfg ⟨f, e, t1⟩ startUrl store = crawl fuel cfg ⟨f, e, t2⟩ startUrl store) ∧
    cancelWorld.take "http://site.example/" = some "context canceled" ∧
    crawl 8 { maxDepth := 2, maxPages := 200, checkAssets := true } cancelWorld
        "http://site.example/" {} =
      .ok (some ("site.example", cancelStore)) ∧
    cancelStore.visitedCount = 2 := by
  refine ⟨?_, rfl, rfl, rfl⟩
  intro β fuel cfg f e t1 t2 startUrl store
  unfold crawl
  cases parseURL startUrl with
  | none => rfl
  | some start =>
    dsimp only
    rw [crawlLoop_take_irrelevant cfg ⟨f, e, t1⟩ ⟨f, e, t2⟩ rfl rfl]

/-- Keys already in the map survive `updateOrInsert`. -/
theorem mem_keys_updateOrInsert (k : String) (v : LinkMeta) (k' : String) :
    ∀ l : List (String × LinkMeta), k' ∈ l.map Prod.fst → k' ∈ (updateOrInsert k v l).map Prod.fst
  | [], h => absurd h (by simp)
  | (k0, v0) :: rest, h => by
    simp only [updateOrInsert]
    split
    · rename_i heq
      simp only [List.map_cons, List.mem_cons] at h ⊢
      rcases h with h | h
      · exact Or.inl (heq ▸ h)
      · exact Or.inr h
    · simp only [List.map_cons, List.mem_cons] at h ⊢
      rcases h with h | h
      · exact Or.inl h
      · exact Or.inr (mem_keys_updateOrInsert k v k' rest h)

/-- Lemma: `updateOrInsert` puts `k` in the key set. -/
theorem self_mem_keys_updateOrInsert (k : String) (v : LinkMeta) :
    ∀ l : List (String × LinkMeta), k ∈ (updateOrInsert k v l).map Prod.fst
  | [] => by simp [updateOrInsert]
  | (k0, v0) :: rest => by
    simp only [updateOrInsert]
    split
    · simp
    · simp only [List.map_cons, List.mem_cons]
      exact Or.inr (self_mem_keys_updateOrInsert k v rest)

/-- Lemma: `RecordDiscoveredLink` never touches the visited set. -/
theorem record_visited_eq (m : Memory) (meta : LinkMeta) (src : String) :
    (m.recordDiscoveredLink meta src).visited = m.visited := rfl

/-- Lemma: `RecordDiscoveredLink` only grows the key set. -/
theorem linkKeys_record_mono (m : Memory) (meta : LinkMeta) (src k' : String)
    (h : k' ∈ linkKeys m) : k' ∈ linkKeys (m.recordDiscoveredLink meta src) :=
  mem_keys_updateOrInsert _ _ _ _ h

/-- Lemma: `RecordDiscoveredLink` puts the normalized key in the key set. -/
theorem self_mem_linkKeys_record (m : Memory) (meta : LinkMeta) (src : String) :
    normalizeForKey meta.url ∈ linkKeys (m.recordDiscoveredLink meta src) :=
  self_mem_keys_updateOrInsert _ _ _

/-- A successful `MarkVisitedPage` appends the (fresh) normalized key to
the visited set and leaves the link map alone. -/
theorem markVisited_true (m : Memory) (url : String) (st' : Memory)
    (h : m.markVisitedPage url = (true, st')) :
    st'.visited = m.visited ++ [normalizeForKey url] ∧ st'.links = m.links ∧
      normalizeForKey url ∉ m.visited := by
  unfold Memory.markVisitedPage at h
  dsimp only at h
  split at h
  · simp at h
  · rename_i hc
    injection h with h1 h2
    subst h2
    refine ⟨rfl, rfl, ?_⟩
    simpa using hc

/-- A failed `MarkVisitedPage` returns the store unchanged. -/
theorem markVisited_false (m : Memory) (url : String) (st' : Memory)
    (h : m.markVisitedPage url = (false, st')) : st' = m := by
  unfold Memory.markVisitedPage at h
  dsimp only at h
  split at h
  · injection h with h1 h2
    exact h2.symm
  · simp at h

/-- One `processOne` step keeps the visited set and only grows the key
set. -/
theorem processOne_inv (cfg : CrawlCfg) (sh : String) (job : PageJob)
    (acc : Memory × List PageJob) (fl : FoundLink) :
    (processOne cfg sh job acc fl).1.visited = acc.1.visited ∧
    (∀ k' ∈ linkKeys acc.1, k' ∈ linkKeys (processOne cfg sh job acc fl).1) := by
  obtain ⟨st, jobs⟩ := acc
  dsimp only [processOne]
  split
  · exact ⟨rfl, fun k' h => linkKeys_record_mono _ _ _ _ h⟩
  · split
    · exact ⟨rfl, fun k' h => h⟩
    · split
      · exact ⟨rfl, fun k' h => linkKeys_record_mono _ _ _ _ h⟩
      · split
        · exact ⟨rfl, fun k' h => linkKeys_record_mono _ _ _ _ h⟩
        · split
          · exact ⟨rfl, fun k' h => linkKeys_record_mono _ _ _ _ h⟩
          · split
            · exact ⟨rfl, fun k' h => linkKeys_record_mono _ _ _ _ h⟩
            · exact ⟨rfl, fun k' h => linkKeys_record_mono _ _ _ _ h⟩

/-- The whole found-links loop keeps the visited set and only grows the
key set. -/
theorem processFound_foldl_inv (cfg : CrawlCfg) (sh : String) (job : PageJob) :
    ∀ (found : List FoundLink) (acc : Memory × List PageJob),
      ((found.foldl (processOne cfg sh job) acc).1.visited = acc.1.visited) ∧
      (∀ k' ∈ linkKeys acc.1, k' ∈ linkKeys ((found.foldl (processOne cfg sh job) acc)).1)
  | [], acc => ⟨rfl, fun _ h => h⟩
  | fl :: rest, acc => by
    simp only [List.foldl_cons]
    have h1 := processOne_inv cfg sh job acc fl
    have h2 := processFound_foldl_inv cfg sh job rest (processOne cfg sh job acc fl)
    exact ⟨h2.1.trans h1.1, fun k' h => h2.2 k' (h1.2 k' h)⟩

/-- After a fresh mark of `job.url` followed by the self-record, the C8
invariant holds again. -/
theorem crawlInv_after_mark_record (m st1 : Memory) (job : PageJob)
    (h : m.markVisitedPage job.url = (true, st1)) (hinv : crawlInv m) :
    crawlInv (st1.recordDiscoveredLink (selfMeta job) job.url) := by
  obtain ⟨hv, hl, hnot⟩ := markVisited_true m job.url st1 h
  obtain ⟨hnodup, hmem⟩ := hinv
  constructor
  · rw [record_visited_eq, hv]
    simp only [List.nodup_append, List.nodup_cons, List.not_mem_nil, not_false_iff,
      List.nodup_nil, and_true, true_and]
    constructor
    · exact hnodup
    · intro a ha hb
      simp only [List.mem_singleton] at hb
      exact hnot (hb ▸ ha)
  · intro k' hk'
    rw [record_visited_eq, hv] at hk'
    rcases List.mem_append.mp hk' with h' | h'
    · have : k' ∈ linkKeys st1 := by
        unfold linkKeys
        rw [hl]
        exact hmem k' h'
      exact linkKeys_record_mono _ _ _ _ this
    · have hk : k' = normalizeForKey job.url := by simpa using h'
      rw [hk]
      exact self_mem_linkKeys_record st1 (selfMeta job) job.url

/-- Every completed run of the crawl loop preserves the C8 invariant:
each branch that marks a page also records it under the same normalized
key before continuing. -/
theorem crawlLoop_preserves_crawlInv (cfg : CrawlCfg) (w : CrawlWorld β) (sh : String) :
    ∀ (fuel : Nat) (queue : List PageJob) (crawled : Nat) (st st' : Memory),
      crawlLoop cfg w sh fuel queue crawled st = some st' → crawlInv st → crawlInv st' := by
  intro fuel
  induction fuel with
  | zero => intro queue crawled st st' h; cases h
  | succ n ih =>
    intro queue crawled st st' h hinv
    cases queue with
    | nil =>
      simp only [crawlLoop, Option.some.injEq] at h
      exact h ▸ hinv
    | cons job rest =>
      simp only [crawlLoop] at h
      split at h
      · simp only [Option.some.injEq] at h
        exact h ▸ hinv
      · split at h
        · exact ih rest crawled st st' h hinv
        · cases hmv : st.markVisitedPage job.url with
          | mk b st1 =>
            rw [hmv] at h
            cases b
            · have hst : st1 = st := markVisited_false st job.url st1 hmv
              dsimp only at h
              exact ih rest crawled st1 st' h (hst ▸ hinv)
            · dsimp only at h
              have hinv2 := crawlInv_after_mark_record st st1 job hmv hinv
              cases hft : w.fetch job.url with
              | buildErr => rw [hft] at h; exact ih _ _ _ _ h hinv2
              | netErr => rw [hft] at h; exact ih _ _ _ _ h hinv2
              | resp ct body =>
                rw [hft] at h
                dsimp only at h
                split at h
                · exact ih _ _ _ _ h hinv2
                · cases hex : w.extract job.url body with
                  | none => rw [hex] at h; exact ih _ _ _ _ h hinv2
                  | some found =>
                    rw [hex] at h
                    dsimp only at h
                    have hpf := processFound_foldl_inv cfg sh job found
                      (st1.recordDiscoveredLink (selfMeta job) job.url, [])
                    refine ih _ _ _ _ h ?_
                    unfold processFound
                    obtain ⟨hnodup2, hmem2⟩ := hinv2
                    constructor
                    · rw [hpf.1]
                      exact hnodup2
                    · intro k' hk'
                      rw [hpf.1] at hk'
                      exact hpf.2 k' (hmem2 k' hk')

/-- Inserting into a sorted list adds one element. -/
theorem length_insertSorted (le : α → α → Bool) (x : α) :
    ∀ l : List α, (insertSorted le x l).length = l.length + 1
  | [] => rfl
  | y :: ys => by
    simp only [insertSorted]
    split
    · simp
    · simp [length_insertSorted le x ys]

/-- Lemma: `sortBy` preserves length. -/
theorem length_sortBy (le : α → α → Bool) : ∀ l : List α, (sortBy le l).length = l.length
  | [] => rfl
  | x :: xs => by
    simp only [sortBy, List.foldr_cons]
    rw [length_insertSorted]
    have := length_sortBy le xs
    simp only [sortBy] at this
    simp [this]

/-- From the C8 invariant: at most as many visited pages as discovered
links. -/
theorem crawlInv_count_le (m : Memory) (hinv : crawlInv m) :
    m.visitedCount ≤ m.allDiscovered.length := by
  obtain ⟨hnodup, hmem⟩ := hinv
  have h1 : m.visited.length = m.visited.toFinset.card :=
    (List.toFinset_card_of_nodup hnodup).symm
  have h2 : m.visited.toFinset ⊆ (linkKeys m).toFinset := by
    intro k hk
    rw [List.mem_toFinset] at hk ⊢
    exact hmem k hk
  have h3 := Finset.card_le_card h2
  have h4 : (linkKeys m).toFinset.card ≤ (linkKeys m).length := List.toFinset_card_le (linkKeys m)
  have h5 : (linkKeys m).length = m.allDiscovered.length := by
    simp [linkKeys, Memory.allDiscovered, length_sortBy]
  unfold Memory.visitedCount
  omega

/-- C8: after any completed crawl from a store satisfying the invariant
(in particular the fresh store), the number of visited pages is at most
the number of discovered links: every branch of the crawl loop that
marks a page visited also records the page itself as a discovered link
under the same normalized key. -/
theorem C8_visited_le_discovered (fuel : Nat) (cfg : CrawlCfg) (w : CrawlWorld β)
    (startUrl : String) (store : Memory) (host : String) (st' : Memory)
    (hinv : crawlInv store)
    (h : crawl fuel cfg w startUrl store = .ok (some (host, st'))) :
    st'.visitedCount ≤ st'.allDiscovered.length := by
  unfold crawl at h
  cases hp : parseURL startUrl with
  | none => rw [hp] at h; cases h
  | some start =>
    rw [hp] at h
    dsimp only at h
    cases hl : crawlLoop cfg w (strToLower start.hostname) fuel
        [{ url := startUrl, depth := 0 }] 0 store with
    | none => rw [hl] at h; simp at h
    | some st2 =>
      rw [hl] at h
      simp only [Except.ok.injEq, Option.some.injEq, Prod.mk.injEq] at h
      have hinv' := crawlLoop_preserves_crawlInv cfg w (strToLower start.hostname)
        fuel [{ url := startUrl, depth := 0 }] 0 store st2 hl hinv
      rw [← h.2]
      exact crawlInv_count_le st2 hinv'

/-- Witness for `C8_visited_le_discovered`: the crawl of the empty start
URL in `emptyStartWorld` from the fresh store. -/
theorem C8_visited_le_discovered_witness :
    emptyStartStore.visitedCount ≤ emptyStartStore.allDiscovered.length :=
  C8_visited_le_discovered 4 { maxDepth := 2, maxPages := 200, checkAssets := true }
    emptyStartWorld "" {} "" emptyStartStore
    ⟨List.nodup_nil, fun k hk => absurd hk (List.not_mem_nil k)⟩ rfl

/-- Lemma: `find?` after `updateOrInsert` finds the inserted value. -/
theorem find?_updateOrInsert_self (k : String) (v : LinkMeta) :
    ∀ l : List (String × LinkMeta),
      (updateOrInsert k v l).find? (fun p => p.1 = k) = some (k, v)
  | [] => by simp [updateOrInsert]
  | (k0, v0) :: rest => by
    simp only [updateOrInsert]
    split
    · simp
    · rename_i hne
      simp only [List.find?]
      have hd : (decide ((k0, v0).1 = k)) = false := by simpa using hne
      simp only [hd]
      exact find?_updateOrInsert_self k v rest

/-- The default entry a fresh key is initialized with. -/
def freshEntry (meta : LinkMeta) : LinkMeta :=
  { meta with url := normalizeForKey meta.url }

/-- Lemma: `RecordDiscoveredLink` written as one map update at the normalized
key: look up the entry (defaulting to the record itself) and merge. -/
theorem record_eq (m : Memory) (meta : LinkMeta) (src : String) :
    m.recordDiscoveredLink meta src =
      Memory.mk m.visited
        (updateOrInsert (normalizeForKey meta.url)
          (mergeEntry meta src
            ((m.lookupLink (normalizeForKey meta.url)).getD (freshEntry meta)))
          m.links) := by
  unfold Memory.recordDiscoveredLink freshEntry
  dsimp only
  cases hf : m.lookupLink (normalizeForKey meta.url) <;> rfl

/-- Looking up the normalized key right after a record yields the merged
entry. -/
theorem lookupLink_record (m : Memory) (meta : LinkMeta) (src : String) :
    (m.recordDiscoveredLink meta src).lookupLink (normalizeForKey meta.url) =
      some (mergeEntry meta src
        ((m.lookupLink (normalizeForKey meta.url)).getD (freshEntry meta))) := by
  rw [record_eq]
  unfold Memory.lookupLink
  dsimp only
  rw [find?_updateOrInsert_self]
  rfl

/-- The sources set-insert in terms of finite sets. -/
theorem toFinset_insertSource (l : List String) (s : String) :
    (insertSource l s).toFinset = insert s l.toFinset := by
  unfold insertSource
  split
  · rename_i h
    rw [Finset.insert_eq_self.mpr]
    rw [List.mem_toFinset]
    simpa using h
  · simp [List.toFinset_append, Finset.insert_eq, Finset.union_comm]

/-- The merge leaves the entry URL alone. -/
theorem mergeEntry_url (meta : LinkMeta) (src : String) (ex : LinkMeta) :
    (mergeEntry meta src ex).url = ex.url := by
  unfold mergeEntry
  split <;> split <;> split <;> split <;> rfl

/-- The merged depth is the minimum of the old and recorded depths. -/
theorem mergeEntry_depth (meta : LinkMeta) (src : String) (ex : LinkMeta) :
    (mergeEntry meta src ex).firstSeenDepth = min meta.firstSeenDepth ex.firstSeenDepth := by
  unfold mergeEntry
  split <;> split <;> split <;> split <;> simp <;> omega

/-- The merged sources, as a set, gain the normalized source page. -/
theorem mergeEntry_sources (meta : LinkMeta) (src : String) (ex : LinkMeta) :
    (mergeEntry meta src ex).sources.toFinset =
      if src = "" then ex.sources.toFinset
      else insert (normalizeForKey src) ex.sources.toFinset := by
  unfold mergeEntry
  split <;> split <;> split <;> split <;>
    simp_all [toFinset_insertSource]

/-- The order-insensitive view of a merged entry is `viewMerge` of the
old view: the depth update is a minimum and the source update a
set-insert. -/
theorem entryView_mergeEntry (meta : LinkMeta) (src : String) (ex : LinkMeta) :
    entryView (mergeEntry meta src ex) =
      viewMerge meta.firstSeenDepth src (entryView ex) := by
  unfold entryView viewMerge
  rw [mergeEntry_url, mergeEntry_depth, mergeEntry_sources]

/-- The fresh entry of a record with empty sources has view
`(k, depth, ∅)`. -/
theorem entryView_freshEntry (meta : LinkMeta) (hs : meta.sources = []) :
    entryView (freshEntry meta) = (normalizeForKey meta.url, meta.firstSeenDepth, ∅) := by
  unfold entryView freshEntry
  rw [hs]
  rfl

/-- One `RecordDiscoveredLink` advances the entry view at the normalized
key by exactly one `viewStep`. -/
theorem lookup_record_viewStep (m : Memory) (meta : LinkMeta) (src k : String)
    (hk : normalizeForKey meta.url = k) (hs : meta.sources = []) :
    Option.map entryView ((m.recordDiscoveredLink meta src).lookupLink k) =
      viewStep k (Option.map entryView (m.lookupLink k)) (meta.firstSeenDepth, src) := by
  subst hk
  rw [lookupLink_record]
  cases hf : m.lookupLink (normalizeForKey meta.url) with
  | none =>
    simp only [Option.map_some', Option.map_none', Option.getD_none, viewStep]
    rw [entryView_mergeEntry, entryView_freshEntry meta hs]
  | some ex =>
    simp only [Option.map_some', Option.getD_some, viewStep]
    rw [entryView_mergeEntry]

/-- Applying a sequence of records sharing the normalized key `k`
advances the entry view by the folded `viewStep`s. -/
theorem applyRecs_view (k : String) :
    ∀ (rs : List (LinkMeta × String)) (m : Memory),
      (∀ r ∈ rs, normalizeForKey r.1.url = k ∧ r.1.sources = []) →
      Option.map entryView ((applyRecs m rs).lookupLink k) =
        (rs.map (fun r => (r.1.firstSeenDepth, r.2))).foldl (viewStep k)
          (Option.map entryView (m.lookupLink k))
  | [], m, _ => rfl
  | (meta, src) :: rest, m, hall => by
    simp only [applyRecs, List.map_cons, List.foldl_cons]
    have h1 := hall (meta, src) (by simp)
    rw [applyRecs_view k rest (m.recordDiscoveredLink meta src)
        (fun r hr => hall r (List.mem_cons_of_mem _ hr))]
    rw [lookup_record_viewStep m meta src k h1.1 h1.2]

/-- Lemma: `viewMerge` steps commute: minimum and set-insert are commutative. -/
theorem viewMerge_comm (d1 d2 : Nat) (s1 s2 : String)
    (v : String × Nat × Finset String) :
    viewMerge d2 s2 (viewMerge d1 s1 v) = viewMerge d1 s1 (viewMerge d2 s2 v) := by
  obtain ⟨u, d0, s⟩ := v
  unfold viewMerge
  dsimp only
  refine congrArg (Prod.mk u) ?_
  by_cases h1 : s1 = "" <;> by_cases h2 : s2 = "" <;>
    simp [h1, h2, Nat.min_left_comm, Finset.Insert.comm]

/-- Lemma: `viewStep`s commute, including against the fresh-insert case. -/
theorem viewStep_left_comm (k : String) (a : Option (String × Nat × Finset String))
    (r1 r2 : Nat × String) :
    viewStep k (viewStep k a r1) r2 = viewStep k (viewStep k a r2) r1 := by
  cases a with
  | some v =>
    simp only [viewStep]
    exact congrArg some (viewMerge_comm r1.1 r2.1 r1.2 r2.2 v)
  | none =>
    obtain ⟨d1, s1⟩ := r1
    obtain ⟨d2, s2⟩ := r2
    simp only [viewStep]
    refine congrArg some ?_
    unfold viewMerge
    dsimp only
    refine congrArg (Prod.mk k) ?_
    by_cases h1 : s1 = "" <;> by_cases h2 : s2 = "" <;>
      simp [h1, h2, Finset.Insert.comm, Finset.pair_comm, Nat.min_comm, Nat.min_left_comm,
        Nat.min_self, Nat.min_assoc]

/-- Folding `viewStep` is invariant under permutation of the records. -/
theorem foldl_viewStep_perm (k : String) {rs rs' : List (Nat × String)}
    (hperm : rs.Perm rs') :
    ∀ a, rs.foldl (viewStep k) a = rs'.foldl (viewStep k) a := by
  induction hperm with
  | nil => intro a; rfl
  | cons x _ ih => intro a; simp only [List.foldl_cons]; exact ih _
  | swap x y l => intro a; simp only [List.foldl_cons]; rw [viewStep_left_comm]
  | trans _ _ ih1 ih2 => intro a; rw [ih1 a, ih2 a]

/-- Replacing the same value twice is one replacement. -/
theorem updateOrInsert_idem (k : String) (v : LinkMeta) :
    ∀ l : List (String × LinkMeta),
      updateOrInsert k v (updateOrInsert k v l) = updateOrInsert k v l
  | [] => by simp [updateOrInsert]
  | (k0, v0) :: rest => by
    simp only [updateOrInsert]
    split
    · simp [updateOrInsert]
    · rename_i h
      simp only [updateOrInsert]
      rw [if_neg h]
      rw [updateOrInsert_idem k v rest]

/-- The inserted source is in the set afterwards. -/
theorem insertSource_contains (l : List String) (s : String) :
    (insertSource l s).contains s = true := by
  unfold insertSource
  split
  · assumption
  · simp

/-- Set-inserting the same source twice is one insert. -/
theorem insertSource_idem (l : List String) (s : String) :
    insertSource (insertSource l s) s = insertSource l s := by
  have h : (insertSource l s).contains s = true := insertSource_contains l s
  conv_lhs => rw [insertSource]
  rw [if_pos h]

/-- Structure extensionality for link entries. -/
theorem LinkMeta.ext' (a b : LinkMeta) (h1 : a.url = b.url)
    (h2 : a.firstSeenDepth = b.firstSeenDepth) (h3 : a.sources = b.sources)
    (h4 : a.kind = b.kind) (h5 : a.skipped = b.skipped) : a = b := by
  cases a; cases b; simp_all

/-- The merged kind: overwritten only by a non-empty new kind. -/
theorem mergeEntry_kind (meta : LinkMeta) (src : String) (ex : LinkMeta) :
    (mergeEntry meta src ex).kind = if meta.kind ≠ "" then meta.kind else ex.kind := by
  unfold mergeEntry
  split <;> split <;> split <;> split <;> simp_all

/-- The merged skip reason: overwritten only by a non-empty new one. -/
theorem mergeEntry_skipped (meta : LinkMeta) (src : String) (ex : LinkMeta) :
    (mergeEntry meta src ex).skipped = if meta.skipped ≠ "" then meta.skipped else ex.skipped := by
  unfold mergeEntry
  split <;> split <;> split <;> split <;> simp_all

/-- The merged sources as a list: a set-insert of the normalized source
page when it is non-empty. -/
theorem mergeEntry_sources_list (meta : LinkMeta) (src : String) (ex : LinkMeta) :
    (mergeEntry meta src ex).sources =
      if src ≠ "" then insertSource ex.sources (normalizeForKey src) else ex.sources := by
  unfold mergeEntry
  split <;> split <;> split <;> split <;> simp_all

/-- Re-merging the same record and source is a no-op on the entry. -/
theorem mergeEntry_idem (meta : LinkMeta) (src : String) (ex : LinkMeta) :
    mergeEntry meta src (mergeEntry meta src ex) = mergeEntry meta src ex := by
  apply LinkMeta.ext'
  · rw [mergeEntry_url, mergeEntry_url]
  · rw [mergeEntry_depth, mergeEntry_depth]
    omega
  · rw [mergeEntry_sources_list, mergeEntry_sources_list]
    split
    · rw [insertSource_idem]
    · rfl
  · rw [mergeEntry_kind, mergeEntry_kind]
    by_cases h : meta.kind ≠ "" <;> simp [h]
  · rw [mergeEntry_skipped, mergeEntry_skipped]
    by_cases h : meta.skipped ≠ "" <;> simp [h]

/-- Lemma: `RecordDiscoveredLink` is idempotent: repeating the same record and
source leaves the store unchanged (in particular the sources set size). -/
theorem record_idem (m : Memory) (meta : LinkMeta) (src : String) :
    (m.recordDiscoveredLink meta src).recordDiscoveredLink meta src =
      m.recordDiscoveredLink meta src := by
  have hl := lookupLink_record m meta src
  rw [record_eq (m.recordDiscoveredLink meta src) meta src, hl]
  rw [record_eq m meta src]
  dsimp only [Option.getD_some]
  rw [mergeEntry_idem]
  rw [updateOrInsert_idem]

/-- C9 counterexample: two records at the same normalized key with
different non-empty kinds; recording them in the two orders yields
different final entries (the kind is last-writer-wins, not
order-independent). -/
theorem C9_counterexample_kind_order_dependent :
    ((({} : Memory).recordDiscoveredLink recPage "http://s.example/").recordDiscoveredLink
        recAsset "http://s.example/").lookupLink "http://site.example/x" ≠
    ((({} : Memory).recordDiscoveredLink recAsset "http://s.example/").recordDiscoveredLink
        recPage "http://s.example/").lookupLink "http://site.example/x" := by
  decide

/-- C9 amended: the merge is idempotent, and the entry's first-seen
depth and sources set are order-independent — permuting a sequence of
records sharing a normalized key leaves the entry view (URL, minimum
depth, sources as a set) unchanged — but the kind and skip reason are
last-non-empty-writer-wins, so permuting records with different
non-empty kinds can change the final entry (see the counterexample). -/
theorem C9_amended_merge_idempotent_order_independent_view
    (k : String) (rs rs' : List (LinkMeta × String)) (m : Memory)
    (hall : ∀ r ∈ rs, normalizeForKey r.1.url = k ∧ r.1.sources = [])
    (hperm : rs.Perm rs') :
    ((∀ (m0 : Memory) (meta : LinkMeta) (src : String),
        (m0.recordDiscoveredLink meta src).recordDiscoveredLink meta src =
          m0.recordDiscoveredLink meta src) ∧
     Option.map entryView ((applyRecs m rs).lookupLink k) =
       Option.map entryView ((applyRecs m rs').lookupLink k)) := by
  refine ⟨record_idem, ?_⟩
  rw [applyRecs_view k rs m hall,
      applyRecs_view k rs' m (fun r hr => hall r (hperm.mem_iff.mpr hr))]
  exact foldl_viewStep_perm k (hperm.map _) _

/-- Witness for the C9 amended theorem: the two records of the
counterexample, in both orders — their full entries differ, but the
entry views coincide. -/
theorem C9_amended_merge_witness :
    Option.map entryView
        ((applyRecs {} [(recPage, "http://a.example/"), (recAsset, "http://b.example/")]).lookupLink
          "http://site.example/x") =
      Option.map entryView
        ((applyRecs {} [(recAsset, "http://b.example/"), (recPage, "http://a.example/")]).lookupLink
          "http://site.example/x") :=
  (C9_amended_merge_idempotent_order_independent_view "http://site.example/x"
    [(recPage, "http://a.example/"), (recAsset, "http://b.example/")]
    [(recAsset, "http://b.example/"), (recPage, "http://a.example/")] {}
    (by decide)
    (List.Perm.swap (recAsset, "http://b.example/") (recPage, "http://a.example/") [])).2
